import Mathlib

/-!
Verification of the LocalSequenceDiagrams script parser and layout engine.

The JavaScript source (class `LocalSequenceDiagrams`) is shallowly embedded here:
strings are modelled as `List Char` (`Str`), the line parser
`parseScriptToArrays` as a total function into `Option` (a `none` result models
a JavaScript `TypeError` raised by pushing an event onto a non-array stack top),
and the layout pipeline `calculatePlacements` over exact rationals `ℚ` with the
injected text measurer as a function parameter.
-/

namespace LSD

/-- Strings as explicit character lists: JavaScript string operations
(`trim`, `split`, `indexOf`, `slice`, …) are reimplemented below on this type. -/
abbrev Str := List Char

/-- Whitespace characters removed by JavaScript `String.prototype.trim`:
the WhiteSpace production (tab, vertical tab, form feed, space, no-break
space, zero-width no-break space, and every Unicode space separator —
Ogham space mark, U+2000..U+200A, narrow no-break space, medium
mathematical space, ideographic space) plus the LineTerminator production
(line feed, carriage return, line separator, paragraph separator). -/
def isWs (c : Char) : Bool :=
  c = ' ' ∨ c = '\t' ∨ c = '\r' ∨ c = '\n' ∨ c = '\x0b' ∨ c = '\x0c'
    ∨ c = '\u00A0' ∨ c = '\uFEFF' ∨ c = '\u1680'
    ∨ (0x2000 ≤ c.toNat ∧ c.toNat ≤ 0x200A)
    ∨ c = '\u2028' ∨ c = '\u2029' ∨ c = '\u202F' ∨ c = '\u205F'
    ∨ c = '\u3000'

/-- JavaScript `line.trim()`: strip whitespace from both ends. -/
def trim (s : Str) : Str :=
  ((s.dropWhile isWs).reverse.dropWhile isWs).reverse

/-- Helper for `splitFirstSpace`: locate the first `' '` and cut there
(`none` when the string has no space, as `indexOf` returning `-1`). -/
def breakOnSpace : Str → Option (Str × Str)
  | [] => none
  | c :: cs =>
    if c = ' ' then some ([], cs)
    else (breakOnSpace cs).map fun p => (c :: p.1, p.2)

/-- Source lines 125-127: `spaceIndex = indexOf(' ')`;
`command = spaceIndex == -1 ? trimmedLine : slice(0, spaceIndex)`;
`text = slice(spaceIndex + 1)`.  When there is no space, `slice(0)` returns
the whole line, so both components are the entire line. -/
def splitFirstSpace (s : Str) : Str × Str :=
  match breakOnSpace s with
  | none => (s, s)
  | some p => p

/-- Prepend a character to the first piece of a split result. -/
def consHead (c : Char) : List Str → List Str
  | [] => [[c]]
  | p :: ps => (c :: p) :: ps

/-- JavaScript `s.split(sep)` for a one-character separator `sep`:
split on every occurrence, left to right (`"".split` gives `[""]`). -/
def splitOnChar (sep : Char) : Str → List Str
  | [] => [[]]
  | c :: cs =>
    if c = sep then [] :: splitOnChar sep cs
    else consHead c (splitOnChar sep cs)

/-- JavaScript `srcDest.split('->')` (source line 230): split on every
non-overlapping occurrence of the two-character separator `->`. -/
def splitOnArrow : Str → List Str
  | '-' :: '>' :: cs => [] :: splitOnArrow cs
  | c :: cs => consHead c (splitOnArrow cs)
  | [] => [[]]

/-- JavaScript `text.split(' as ')` (source line 169): split on every
non-overlapping occurrence of the four-character separator `" as "`. -/
def splitOnAs : Str → List Str
  | ' ' :: 'a' :: 's' :: ' ' :: cs => [] :: splitOnAs cs
  | c :: cs => consHead c (splitOnAs cs)
  | [] => [[]]

/-- Source lines 294-305, `splitOnColonEscaped` loop: find the first `':'`
outside double quotes; `none` when there is none. -/
def socAux : Bool → Str → Option (Str × Str)
  | _, [] => none
  | quoted, c :: cs =>
    if c = '"' then (socAux (!quoted) cs).map fun p => (c :: p.1, p.2)
    else if c = ':' ∧ quoted = false then some ([], cs)
    else (socAux quoted cs).map fun p => (c :: p.1, p.2)

/-- Source lines 294-305: split on the first unquoted `':'`; when there is
none, return `[input, ""]`. -/
def splitOnColonEscaped (input : Str) : Str × Str :=
  match socAux false input with
  | none => (input, [])
  | some p => p

/-- JavaScript `s.replace(/"/g, '')`. -/
def stripQuotes (s : Str) : Str := s.filter (· ≠ '"')

/-! ## Parsed data model (source lines 12-29 and the parser's object literals)

An actor is `{ type, caption, alias }`; `alias` is `none` for actors
auto-created by a signal (the source sets no `alias` field there). -/

structure Actor where
  type : Str
  caption : Str
  aliasName : Option Str   -- the source's `alias` field (a Lean keyword)
deriving DecidableEq

/-- The discriminated union of event objects the parser produces, each
constructor mirroring one object-literal shape of the source:
`signal` for `{type:'signal', caption, src, dest, dotted, open}` (line 267);
`annot` for `{type: note|ref|state, caption, align, src}` (line 158, `src` is
`none` when the location had fewer than three space-separated words);
`group` for `{type, cases:[{caption, events}]}` — built both by conditional
groupings (line 177) and by explicit lifetime lines (line 198);
`life` for the implicit `{type: activate|deactivate, src}` (lines 270, 274);
`sync` for `{type: parallel|serial, events}` (line 204);
`auton` for `{type:'autonumber', start}` (line 217). -/
inductive Event where
  | signal (caption src dest : Str) (dotted opn : Bool)
  | annot (kind caption align : Str) (src : Option Str)
  | group (kind : Str) (cases : List (Str × List Event))
  | life (kind src : Str)
  | sync (kind : Str) (events : List Event)
  | auton (start : Str)

/-! ## Parser state

The source keeps a stack `eventStack` whose bottom is the root `events` array
(line 119).  Each entry of `opens` below models the stack frames **above** the
root, head innermost (= JavaScript `eventStack.at(-1)`):

* `openCase kind closed cap acc` — **two** JavaScript frames: a conditional
  grouping object (its already-closed cases in `closed`) and, directly above
  it, its currently open case's events array (`cap` its caption, `acc` its
  events so far) — conditional groupings are double-nested, line 137;
* `exposedWrapper kind cases` — a conditional grouping object left on top
  after a `}` popped its case array (source lines 208-212);
* `openSync kind acc` — a `parallel`/`serial` events array (line 206);
* `openNote kind caption align src` — an annotation object collecting
  multi-line text (line 162).

Mutation of shared objects is modelled by *closing* an entry into the frame
below it when it is popped; since nothing can be appended to a frame while
another frame sits above it, the resulting tree is the same. -/

inductive OpenEntry where
  | openCase (kind : Str) (closed : List (Str × List Event)) (cap : Str) (acc : List Event)
  | exposedWrapper (kind : Str) (cases : List (Str × List Event))
  | openSync (kind : Str) (acc : List Event)
  | openNote (kind caption align : Str) (src : Option Str)

structure PState where
  actors : List Actor
  root : List Event
  opens : List OpenEntry

/-- The number of entries of the JavaScript `eventStack` this state models:
the root array plus one frame per entry (two for `openCase`). -/
def OpenEntry.frames : OpenEntry → ℕ
  | .openCase _ _ _ _ => 2
  | _ => 1

def jsStackLen (st : PState) : ℕ :=
  1 + (st.opens.map OpenEntry.frames).sum

/-- The keyword lists of source lines 111-115. -/
def participants : List Str := ["participant".data, "actor".data]
def annotations : List Str := ["note".data, "ref".data, "state".data]
def synchrony : List Str := ["parallel".data, "serial".data]
def lifetime : List Str := ["activate".data, "deactivate".data, "destroy".data]
def conditionalGroupings : List Str :=
  ["alt".data, "opt".data, "loop".data, "par".data, "seq".data]

/-- Append events to the current insertion point (JavaScript
`eventStack.at(-1).push(...)`).  A `none` result models the `TypeError` the
source raises when the stack top is a plain object rather than an array
(a conditional-grouping wrapper exposed by `}`, or — unreachable, because the
multi-line branch intercepts those lines first — an annotation object). -/
def pushEvents (st : PState) (es : List Event) : Option PState :=
  match st.opens with
  | [] => some { st with root := st.root ++ es }
  | .openCase k cl cap acc :: rest =>
      some { st with opens := .openCase k cl cap (acc ++ es) :: rest }
  | .openSync k acc :: rest =>
      some { st with opens := .openSync k (acc ++ es) :: rest }
  | .exposedWrapper _ _ :: _ => none
  | .openNote _ _ _ _ :: _ => none

/-- Whether `eventStack.at(-1).push` would succeed (the top frame is an
array). -/
def canPush (st : PState) : Bool :=
  match st.opens with
  | .exposedWrapper _ _ :: _ => false
  | .openNote _ _ _ _ :: _ => false
  | _ => true

/-- Whether the parser is collecting multi-line annotation text
(source line 146: `annotations.includes(eventStack.at(-1).type)`). -/
def collectingNote (st : PState) : Bool :=
  match st.opens with
  | .openNote _ _ _ _ :: _ => true
  | _ => false

/-- The completed event an open entry closes into once popped.  For
`openCase` this covers both JavaScript pops of an `end` (case array, then the
conditional wrapper the first pop exposes, lines 132-141). -/
def closeEntry : OpenEntry → Event
  | .openCase k cl cap acc => .group k (cl ++ [(cap, acc)])
  | .exposedWrapper k cs => .group k cs
  | .openSync k acc => .sync k acc
  | .openNote kd cap al src => .annot kd cap al src

/-- Append a closed entry's event one level down: the state continues with
`rest` as the open stack and `e` appended to its innermost sequence.  The
`exposedWrapper`/`openNote` cases are unreachable (no entry is ever created
on top of either: creating one starts with a push, which raises there). -/
def appendClosed (st : PState) (rest : List OpenEntry) (e : Event) : PState :=
  match rest with
  | [] => { st with root := st.root ++ [e], opens := [] }
  | .openCase k cl cap acc :: r =>
      { st with opens := .openCase k cl cap (acc ++ [e]) :: r }
  | .openSync k acc :: r =>
      { st with opens := .openSync k (acc ++ [e]) :: r }
  | .exposedWrapper k cs :: r =>
      { st with opens := .exposedWrapper k cs :: r }
  | .openNote kd cap al src :: r =>
      { st with opens := .openNote kd cap al src :: r }

/-- One optional leading-character flag of a signal destination (source
lines 243-265): when `s` starts with `c`, strip it and report `true`. -/
def stripFlag (c : Char) (s : Str) : Str × Bool :=
  if s.head? = some c then (s.tail, true) else (s, false)

/-- Source lines 132-141, command `end`: pop one level if the stack is longer
than 1; pop a second level if the newly exposed top is a conditional-grouping
wrapper.  With only the root open this is a no-op. -/
def stepEnd (st : PState) : PState :=
  match st.opens with
  | [] => st
  | e :: rest => appendClosed st rest (closeEntry e)

/-- Source lines 182-193, command `else`: pop one level if the stack is longer
than 1; only if the newly exposed top is a conditional-grouping wrapper,
append a fresh case and push its events array. -/
def stepElse (st : PState) (text : Str) : PState :=
  match st.opens with
  | [] => st
  | .openCase k cl cap acc :: rest =>
      -- the pop exposes the wrapper, whose type is a conditional grouping
      { st with opens := .openCase k (cl ++ [(cap, acc)]) text [] :: rest }
  | e :: rest => appendClosed st rest (closeEntry e)

/-- Source lines 208-212, command `}`: pop one level if the stack is longer
than 1.  Popping an open case's events array leaves its wrapper exposed. -/
def stepBrace (st : PState) : PState :=
  match st.opens with
  | [] => st
  | .openCase k cl cap acc :: rest =>
      { st with opens := .exposedWrapper k (cl ++ [(cap, acc)]) :: rest }
  | e :: rest => appendClosed st rest (closeEntry e)

/-- One iteration of the parser's per-line loop (source lines 122-287),
dispatching on the command in the source's order.  `none` models a raised
`TypeError` (see `pushEvents`). -/
def stepLine (st : PState) (line : Str) : Option PState :=
  let trimmedLine := trim line
  let command := (splitFirstSpace trimmedLine).1
  let text := (splitFirstSpace trimmedLine).2
  -- GROUPINGS: "end" can terminate annotations or conditional groupings
  if command = "end".data then
    some (stepEnd st)
  -- ANNOTATIONS: multi-line text collection takes priority over keywords
  else if collectingNote st then
    match st.opens with
    | .openNote kd cap al src :: rest =>
        let entry := OpenEntry.openNote kd (cap ++ trimmedLine ++ ['\n']) al src
        some { st with opens := entry :: rest }
    | _ => some st  -- unreachable: `collectingNote` holds only for `openNote`
  else if command ∈ annotations then
    let parts := splitOnChar ':' text
    let location := parts.headD []
    let caption? := parts[1]?
    let lparts := splitOnChar ' ' location
    let align := lparts.headD []
    let src := lparts[2]?
    -- absence of ":" (or an empty right part) means multi-line mode
    if caption? = none ∨ caption? = some [] then
      if canPush st then
        some { st with opens := .openNote command [] align src :: st.opens }
      else none
    else
      pushEvents st [.annot command (trim (caption?.getD [])) align src]
  -- PARTICIPANTS
  else if command ∈ participants then
    let parts := splitOnAs text
    let caption := parts.headD []
    let alias0 := match parts[1]? with
      | none => caption
      | some [] => caption     -- JavaScript: if (!alias) alias = caption
      | some a => a
    some { st with actors := st.actors ++ [⟨command, caption, some alias0⟩] }
  -- CONDITIONAL GROUPINGS
  else if command ∈ conditionalGroupings then
    if canPush st then
      some { st with opens := .openCase command [] text [] :: st.opens }
    else none
  else if command = "else".data then
    some (stepElse st text)
  -- LIFETIME
  else if command ∈ lifetime then
    pushEvents st [.group command [(text, [])]]
  -- LAYOUT CONTROLS
  else if command ∈ synchrony then
    if canPush st then
      some { st with opens := .openSync command [] :: st.opens }
    else none
  else if command = "\x7d".data then
    some (stepBrace st)
  -- NUMBERING
  else if command = "autonumber".data then
    pushEvents st [.auton text]
  -- COMMENTS
  else if command.head? = some '#' then
    some st
  -- SIGNALS
  else
    let srcDest := (splitOnColonEscaped trimmedLine).1
    let caption0 := (splitOnColonEscaped trimmedLine).2
    let aparts := splitOnArrow srcDest
    let src0 := aparts.headD []
    let dest? := aparts[1]?
    -- JS: if (caption && dest) — dest is undefined (no "->") or a string,
    -- and both the empty caption and the empty destination are falsy
    if caption0 = [] ∨ dest? = none ∨ dest? = some [] then some st
    else
        let d := dest?.getD []
        let caption := trim caption0
        let dest1 := stripQuotes (trim d)
        let src1 := stripQuotes (trim src0)
        -- trailing "-" on the source: dotted line
        let ps := if src1.getLast? = some '-' then (src1.dropLast, true)
          else (src1, false)
        -- leading ">": open arrowhead
        let p1 := stripFlag '>' dest1
        -- leading "*": new-actor marker, parsed and discarded
        let p2 := stripFlag '*' p1.1
        -- leading "+": activate; leading "-" after that: deactivate
        let p3 := stripFlag '+' p2.1
        let p4 := stripFlag '-' p3.1
        let evs := [Event.signal caption ps.1 p4.1 ps.2 p1.2]
          ++ (if p3.2 then [Event.life "activate".data p4.1] else [])
          ++ (if p4.2 then [Event.life "deactivate".data p4.1] else [])
        (pushEvents st evs).map fun st1 =>
          -- if the source or destination is not yet in the actors array, add it
          let st2 := if st1.actors.any fun a => a.caption = ps.1 then st1
            else { st1 with actors :=
              st1.actors ++ [⟨"participant".data, ps.1, none⟩] }
          if st2.actors.any fun a => a.caption = p4.1 then st2
          else { st2 with actors :=
            st2.actors ++ [⟨"participant".data, p4.1, none⟩] }

def initState : PState := ⟨[], [], []⟩

def runLines (st : PState) : List Str → Option PState
  | [] => some st
  | l :: ls =>
    match stepLine st l with
    | none => none
    | some st' => runLines st' ls

/-- Append a completed event into an open entry's own sequence (the per-entry
action of `appendClosed`; the last two cases are unreachable as there). -/
def closeInto (f : OpenEntry) (e : Event) : OpenEntry :=
  match f with
  | .openCase k cl cap acc => .openCase k cl cap (acc ++ [e])
  | .openSync k acc => .openSync k (acc ++ [e])
  | .exposedWrapper k cs => .exposedWrapper k cs
  | .openNote kd cap al src => .openNote kd cap al src

/-- Close a whole chain of residual open entries, innermost first, into the
single event the outermost one contributes to the root sequence. -/
def closeChain : OpenEntry → List OpenEntry → Event
  | e, [] => closeEntry e
  | e, f :: rest => closeChain (closeInto f (closeEntry e)) rest

/-- At end of script, residual open groupings keep the content they absorbed
(the source's objects are already linked into their parents). -/
def finalize (st : PState) : List Actor × List Event :=
  match st.opens with
  | [] => (st.actors, st.root)
  | e :: rest => (st.actors, st.root ++ [closeChain e rest])

/-- Source lines 109-290, `parseScriptToArrays`: split the script on newlines
and run the per-line loop; `none` models a raised `TypeError`. -/
def parseScriptToArrays (script : Str) : Option (List Actor × List Event) :=
  (runLines initState (splitOnChar '\n' script)).map finalize

def parseString (s : String) : Option (List Actor × List Event) :=
  parseScriptToArrays s.data

/-- Whether an open entry is a conditional-grouping wrapper exposed on top of
the stack by a `}` — the only stack top on which an event push raises. -/
def OpenEntry.isExposed : OpenEntry → Bool
  | .exposedWrapper _ _ => true
  | _ => false

/-- No exposed wrapper anywhere on the open stack.  This holds initially and
is preserved by every line whose command is not `}`. -/
def noExposed (st : PState) : Prop :=
  ∀ e ∈ st.opens, e.isExposed = false

/-! ## Layout engine (source lines 309-483)

Geometry is exact rational arithmetic; the injected text measurer
(`sizes.calculateTextDimensions`) is a function parameter. -/

structure BBox where
  width : ℚ
  height : ℚ

/-- The sizing constants and the injected measurer (source lines 72-84 for
the vector backend, 91-103 for the text-art backend). -/
structure Sizes where
  padding : ℚ
  signalMargin : ℚ
  noteMarginX : ℚ
  noteMarginY : ℚ
  noteTextMarginX : ℚ
  noteTextMarginY : ℚ
  altMinHeight : ℚ
  altMarginBottom : ℚ
  altMarginItems : ℚ
  actorStickmanHeight : ℚ
  calculateTextDimensions : Str → BBox

/-- An actor augmented with the geometry the layout assigns (all of
`width`, `height`, `x`, `y`, `lineX`, `lineY` are written by
`calculatePlacements` before use). -/
structure PActor where
  type : Str
  caption : Str
  aliasName : Option Str
  width : ℚ
  height : ℚ
  x : ℚ
  y : ℚ
  lineX : ℚ
  lineY : ℚ

/-! Events augmented with the optional geometry fields the two layout walks
write (`none` models a field the source has not assigned):
signal: `width height startX endX startY endY`;
annot: `width height x y textMarginX textMarginY`;
group: `x y width height` plus a per-case `height`. -/
mutual
inductive PEvent where
  | signal (caption src dest : Str) (dotted opn : Bool)
      (width height startX endX startY endY : Option ℚ)
  | annot (kind caption align : Str) (src : Option Str)
      (width height x y tmx tmy : Option ℚ)
  | group (kind : Str) (cases : List PCase) (x y width height : Option ℚ)
  | life (kind src : Str)
  | sync (kind : Str) (events : List PEvent)
  | auton (start : Str)
inductive PCase where
  | mk (caption : Str) (events : List PEvent) (height : Option ℚ)
end

/-! The parsed tree, before layout assigns any geometry. -/
mutual
def Event.toP : Event → PEvent
  | .signal c s d dt op => .signal c s d dt op none none none none none none
  | .annot k c a s => .annot k c a s none none none none none none
  | .group k cs => .group k (toPCases cs) none none none none
  | .life k s => .life k s
  | .sync k es => .sync k (toPList es)
  | .auton s => .auton s
termination_by structural e => e
def toPList : List Event → List PEvent
  | [] => []
  | e :: es => e.toP :: toPList es
termination_by structural l => l
def toPCases : List (Str × List Event) → List PCase
  | [] => []
  | (c, es) :: cs => .mk c (toPList es) none :: toPCases cs
termination_by structural l => l
end

/-- Source line 310: `actors.reduce((dict, val, idx) => ...)` — a lookup by
caption where a later actor with the same caption overwrites an earlier
one.  Only the index is needed here; the actor object itself is recovered
from the (placed) list at that index. -/
def actorIdxAux (name : Str) : List Actor → ℕ → Option ℕ → Option ℕ
  | [], _, acc => acc
  | a :: rest, i, acc =>
    actorIdxAux name rest (i + 1) (if a.caption = name then some i else acc)

def actorIdx (actors : List Actor) (name : Str) : Option ℕ :=
  actorIdxAux name actors 0 none

/-- A collected spacing requirement `[laneIndexA, laneIndexB, minWidth]`
(source lines 414 and 423). -/
abbrev Triple := ℕ × ℕ × ℚ

/-! Source lines 402-435, `calculateLaneGapsAndTextSize`: walk the events,
measure signal and note captions (writing their `width`/`height`), collect
spacing triples, and recurse into the cases of events whose type is `alt`.
Returns the triples and the updated events. -/
mutual
def calculateLaneGapsAndTextSize (aidx : Str → Option ℕ) (sizes : Sizes) :
    List PEvent → List Triple × List PEvent
  | [] => ([], [])
  | e :: rest =>
    let r1 := gapsOne aidx sizes e
    let r := calculateLaneGapsAndTextSize aidx sizes rest
    (r1.1 ++ r.1, r1.2 :: r.2)
termination_by structural l => l
def gapsOne (aidx : Str → Option ℕ) (sizes : Sizes) :
    PEvent → List Triple × PEvent
  | .signal c s d dt op w h sx ex sy ey =>
    (match aidx s, aidx d with
    | some i1, some i2 =>
      let bbox := sizes.calculateTextDimensions c
      ([(i1, i2, bbox.width + 2 * sizes.padding)],
       .signal c s d dt op (some bbox.width) (some bbox.height) sx ex sy ey)
    | _, _ => ([], .signal c s d dt op w h sx ex sy ey))
  | .annot k c al s w h x y tx ty =>
    if k = "note".data then
      match s.bind aidx with
      | some i1 =>
        let bbox := sizes.calculateTextDimensions c
        let wd := bbox.width + 2 * sizes.padding
        ([(i1, i1 + 1, wd + 2 * sizes.padding)],
         .annot k c al s (some wd) (some (bbox.height + 2 * sizes.padding)) x y tx ty)
      | none => ([], .annot k c al s w h x y tx ty)
    else ([], .annot k c al s w h x y tx ty)
  | .group k cs x y w h =>
    if k = "alt".data then
      let rc := gapsCases aidx sizes cs
      (rc.1, .group k rc.2 x y w h)
    else ([], .group k cs x y w h)
  | e => ([], e)
termination_by structural e => e
def gapsCases (aidx : Str → Option ℕ) (sizes : Sizes) :
    List PCase → List Triple × List PCase
  | [] => ([], [])
  | .mk c es h :: cs =>
    let re := calculateLaneGapsAndTextSize aidx sizes es
    let rc := gapsCases aidx sizes cs
    (re.1 ++ rc.1, .mk c re.2 h :: rc.2)
termination_by structural l => l
end

/-! Source lines 437-483, `calculateEventPlacements`: assign Y positions,
descending into the cases of events whose type is `alt`; returns the final
cursor and the placed events.  `casePlacements` additionally returns the
accumulated `altHeight` contribution (the sum of case heights). -/
mutual
def calculateEventPlacements (adict : Str → Option PActor) (sizes : Sizes)
    (totalWidth : ℚ) : List PEvent → ℚ → ℚ × List PEvent
  | [], y => (y, [])
  | e :: rest, y =>
    let r1 := placeOne adict sizes totalWidth e y
    let r := calculateEventPlacements adict sizes totalWidth rest r1.1
    (r.1, r1.2 :: r.2)
termination_by structural es y => es
def placeOne (adict : Str → Option PActor) (sizes : Sizes)
    (totalWidth : ℚ) : PEvent → ℚ → ℚ × PEvent
  | .signal c s d dt op w h sx ex sy ey, y =>
    (match adict s, adict d with
    | some a1, some a2 =>
      -- the gap walk wrote e.height under the same actor-lookup guard,
      -- so `h.getD 0` only defaults in states the pipeline cannot reach
      (y + sizes.signalMargin + h.getD 0,
       .signal c s d dt op w h (some a1.lineX) (some a2.lineX) (some y) (some y))
    | _, _ => (y, .signal c s d dt op w h sx ex sy ey))
  | .annot k c al s w h x yy tx ty, y =>
    if k = "note".data then
      match s.bind adict with
      | some a1 =>
        (y + sizes.noteMarginY + h.getD 0,
         .annot k c al s w h (some (a1.lineX + sizes.noteMarginX)) (some y)
           (some sizes.noteTextMarginX) (some sizes.noteTextMarginY))
      | none => (y, .annot k c al s w h x yy tx ty)
    else (y, .annot k c al s w h x yy tx ty)
  | .group k cs x yy w h, y =>
    if k = "alt".data then
      let rc := casePlacements adict sizes totalWidth cs (y + sizes.altMarginItems)
      (rc.1 + sizes.altMarginBottom,
       .group k rc.2.1 (some 0) (some y) (some totalWidth)
         (some (sizes.altMinHeight + rc.2.2)))
    else (y, .group k cs x yy w h)
  | e, y => (y, e)
termination_by structural e y => e
def casePlacements (adict : Str → Option PActor) (sizes : Sizes)
    (totalWidth : ℚ) : List PCase → ℚ → ℚ × List PCase × ℚ
  | [], y => (y, [], 0)
  | .mk c es _ :: cs, y =>
    let re := calculateEventPlacements adict sizes totalWidth es y
    let caseHeight := re.1 - y
    let rc := casePlacements adict sizes totalWidth cs re.1
    (rc.1, .mk c re.2 (some caseHeight) :: rc.2.1, caseHeight + rc.2.2)
termination_by structural cs y => cs
end

/-- Source lines 315-325, per-actor box sizing: `height = bbox.height +
2*padding (+ stickman height for actors)`, `width = bbox.width + 2*padding`.
The `x`, `y`, `lineX`, `lineY` fields are assigned by the later sweeps. -/
def actorSized (sizes : Sizes) (a : Actor) : PActor :=
  let bbox := sizes.calculateTextDimensions a.caption
  let extra := if a.type = "actor".data then sizes.actorStickmanHeight else 0
  ⟨a.type, a.caption, a.aliasName,
    bbox.width + 2 * sizes.padding, bbox.height + 2 * sizes.padding + extra,
    0, 0, 0, 0⟩

/-- `gaps[i] += v` (a no-op when `i` is out of range, as the source's guarded
comparisons ensure). -/
def addAt (l : List ℚ) (i : ℕ) (v : ℚ) : List ℚ := l.set i (l.getD i 0 + v)

/-- Source lines 311 and 323-324: `gaps` starts as `actors.length + 1` zeros;
each actor adds `width/2 + padding` to the gaps on both of its sides. -/
def initGapsAux (sizes : Sizes) : List PActor → ℕ → List ℚ → List ℚ
  | [], _, g => g
  | a :: rest, i, g =>
    initGapsAux sizes rest (i + 1)
      (addAt (addAt g i (a.width / 2 + sizes.padding))
        (i + 1) (a.width / 2 + sizes.padding))

def initGaps (sizes : Sizes) (actors : List PActor) : List ℚ :=
  initGapsAux sizes actors 0 (List.replicate (actors.length + 1) 0)

/-- The body of the first distribution loop (source lines 335-349): raise the
gap for a contiguous (`idx1+1 == idx2`) or same-lane (`idx1 == idx2`)
triple. -/
def localStep (gaps : List ℚ) (t : Triple) : List ℚ :=
  let i1 := min t.1 t.2.1
  let i2 := max t.1 t.2.1
  let m := t.2.2
  let g1 := if i1 + 1 = i2 ∧ gaps.getD (i1 + 1) 0 < m
    then gaps.set (i1 + 1) m else gaps
  if i1 = i2 ∧ g1.getD i1 0 < m then g1.set i1 m else g1

/-- Source lines 335-349, the first distribution pass over the triples. -/
def localPass (gaps : List ℚ) : List Triple → List ℚ
  | [] => gaps
  | t :: ts => localPass (localStep gaps t) ts

/-- `Σ gaps[lo..lo+n-1]`. -/
def sumRangeAux (gaps : List ℚ) : ℕ → ℕ → ℚ
  | _, 0 => 0
  | j, n + 1 => gaps.getD j 0 + sumRangeAux gaps (j + 1) n

/-- `Σ gaps[lo..hi-1]` (source lines 360-363). -/
def sumRange (gaps : List ℚ) (lo hi : ℕ) : ℚ :=
  sumRangeAux gaps lo (hi - lo)

/-- `gaps[j+1] += v` for `n` values of `j` starting at `lo`. -/
def addRangeAux (v : ℚ) : ℕ → ℕ → List ℚ → List ℚ
  | _, 0, g => g
  | j, n + 1, g => addRangeAux v (j + 1) n (addAt g (j + 1) v)

/-- `gaps[j+1] += v` for `j` in `[lo, hi)` (source lines 368-370). -/
def addRange (gaps : List ℚ) (lo hi : ℕ) (v : ℚ) : List ℚ :=
  addRangeAux v lo (hi - lo) gaps

/-- The body of the second distribution loop (source lines 354-373): spread
the shortfall of a multi-lane triple evenly over the gaps it spans. -/
def distStep (gaps : List ℚ) (t : Triple) : List ℚ :=
  let i1 := min t.1 t.2.1
  let i2 := max t.1 t.2.1
  let m := t.2.2
  let totalGap := sumRange gaps i1 i2
  if i1 + 1 < i2 ∧ gaps.getD (i1 + 1) 0 < m then
    (let extraGap := (m - totalGap) / ((i2 : ℚ) - (i1 : ℚ))
     if 0 < extraGap then addRange gaps i1 i2 extraGap else gaps)
  else gaps

/-- Source lines 354-373, the second distribution pass over the triples. -/
def distPass (gaps : List ℚ) : List Triple → List ℚ
  | [] => gaps
  | t :: ts => distPass (distStep gaps t) ts

/-- Source lines 377-386, actor placement sweep: the running offset starts at
`gaps[0]`; each actor gets `lineX = offset`, `x = lineX - width/2`,
`y = padding`; the offset then advances by `gaps[i+1]`.  Returns the placed
actors, the final offset (the canvas width) and the tallest actor height. -/
def placeActorsAux (pad : ℚ) (gaps : List ℚ) :
    List PActor → ℕ → ℚ → ℚ → List PActor × ℚ × ℚ
  | [], _, offset, maxH => ([], offset, maxH)
  | a :: rest, i, offset, maxH =>
    let a' := { a with lineX := offset, x := offset - a.width / 2, y := pad }
    let r := placeActorsAux pad gaps rest (i + 1)
      (offset + gaps.getD (i + 1) 0) (max maxH a.height)
    (a' :: r.1, r.2.1, r.2.2)

def placeActors (pad : ℚ) (gaps : List ℚ) (actors : List PActor) :
    List PActor × ℚ × ℚ :=
  placeActorsAux pad gaps actors 0 (gaps.getD 0 0) 0

/-- The spacing triples the pipeline collects (step 2 of the layout). -/
def pipelineTriples (actors : List Actor) (events : List Event)
    (sizes : Sizes) : List Triple :=
  (calculateLaneGapsAndTextSize (actorIdx actors) sizes (toPList events)).1

structure Placements where
  actors : List PActor
  events : List PEvent
  width : ℚ
  height : ℚ

/-- Source lines 309-400, `calculatePlacements`: size the actors, collect
gap requirements, run both distribution passes, place the actors, place the
events starting just below the tallest actor box, and stamp every actor's
`lineY` with the final cursor. -/
def calculatePlacements (actors : List Actor) (events : List Event)
    (sizes : Sizes) : Placements :=
  let aidx := actorIdx actors
  let sized := actors.map (actorSized sizes)
  let gaps0 := initGaps sizes sized
  let gw := calculateLaneGapsAndTextSize aidx sizes (toPList events)
  let gaps1 := localPass gaps0 gw.1
  let gaps2 := distPass gaps1 gw.1
  let pa := placeActors sizes.padding gaps2 sized
  let adict := fun name => (aidx name).bind fun i => pa.1[i]?
  let ep := calculateEventPlacements adict sizes pa.2.1 gw.2
    (pa.2.2 + sizes.padding * 2 + 1)
  ⟨pa.1.map fun a => { a with lineY := ep.1 }, ep.2, pa.2.1, ep.1⟩

/-- Source lines 827-836, `calculateTextDimensionsAscii`: split on `\n` or a
literal backslash-n; height = number of lines, width = longest line (the
`Math.max` over a nonempty list of lengths equals this fold). -/
def splitNewlines : Str → List Str
  | [] => [[]]
  | '\n' :: cs => [] :: splitNewlines cs
  | '\\' :: 'n' :: cs => [] :: splitNewlines cs
  | c :: cs => consHead c (splitNewlines cs)

def calculateTextDimensionsAscii (content : Str) : BBox :=
  let lines := splitNewlines content
  ⟨(((lines.map List.length).foldl max 0 : ℕ) : ℚ), ((lines.length : ℕ) : ℚ)⟩

/-- The text-art sizing constants (source lines 91-103). -/
def asciiSizes : Sizes :=
  ⟨1, 2, 1, 1, 1, 1, 1, 1, 1, 1, calculateTextDimensionsAscii⟩

/-- A case's recorded height (`0` when layout never assigned one). -/
def PCase.heightD : PCase → ℚ
  | .mk _ _ h => h.getD 0

/-- A case's nested event sequence. -/
def PCase.eventsOf : PCase → List PEvent
  | .mk _ es _ => es

/-! ## Basic lemmas about the parser -/

theorem breakOnSpace_eq_none {l : Str} (h : ' ' ∉ l) : breakOnSpace l = none := by
  induction l with
  | nil => rfl
  | cons c cs ih =>
    have hc : ¬ c = ' ' := fun hc => h (hc ▸ List.mem_cons_self c cs)
    have hcs : ' ' ∉ cs := fun hm => h (List.mem_cons_of_mem c hm)
    simp [breakOnSpace, hc, ih hcs]

theorem breakOnSpace_sep {a : Str} (b : Str) (h : ' ' ∉ a) :
    breakOnSpace (a ++ ' ' :: b) = some (a, b) := by
  induction a with
  | nil => rfl
  | cons c cs ih =>
    have hc : ¬ c = ' ' := fun hc => h (hc ▸ List.mem_cons_self c cs)
    have hcs : ' ' ∉ cs := fun hm => h (List.mem_cons_of_mem c hm)
    simp [breakOnSpace, hc, ih hcs]

theorem splitFirstSpace_sep {a : Str} (b : Str) (h : ' ' ∉ a) :
    splitFirstSpace (a ++ ' ' :: b) = (a, b) := by
  simp [splitFirstSpace, breakOnSpace_sep b h]

theorem runLines_append (st : PState) (a b : List Str) :
    runLines st (a ++ b) = (runLines st a).bind fun s => runLines s b := by
  induction a generalizing st with
  | nil => rfl
  | cons l ls ih =>
    simp only [List.cons_append, runLines]
    cases stepLine st l with
    | none => rfl
    | some st' => exact ih st'

theorem stepLine_end (st : PState) :
    stepLine st ("end".data) = some (stepEnd st) := rfl

theorem stepEnd_root {st : PState} (h : st.opens = []) : stepEnd st = st := by
  cases st with
  | mk a r o => cases h; rfl

theorem noExposed_append {st : PState} {rest : List OpenEntry} {ev : Event}
    (h : ∀ e ∈ rest, e.isExposed = false) :
    ∀ e ∈ (appendClosed st rest ev).opens, e.isExposed = false := by
  cases rest with
  | nil => intro e he; simp [appendClosed] at he
  | cons f r =>
    cases f <;>
    · intro e he
      simp only [appendClosed] at he
      rcases List.mem_cons.1 he with rfl | hm
      · first
        | rfl
        | exact h _ (List.mem_cons_self _ _)
      · exact h _ (List.mem_cons_of_mem _ hm)

theorem stepEnd_noExposed {st : PState} (h : noExposed st) :
    noExposed (stepEnd st) := by
  obtain ⟨A, R, O⟩ := st
  cases O with
  | nil => exact h
  | cons f r =>
    exact noExposed_append fun e' he' => h e' (List.mem_cons_of_mem _ he')

theorem stepElse_noExposed {st : PState} (t : Str) (h : noExposed st) :
    noExposed (stepElse st t) := by
  obtain ⟨A, R, O⟩ := st
  cases O with
  | nil => exact h
  | cons f r =>
    have htail : ∀ e ∈ r, e.isExposed = false :=
      fun e' he' => h e' (List.mem_cons_of_mem _ he')
    cases f with
    | openCase k cl cap acc =>
      intro e he
      rcases List.mem_cons.1 he with rfl | hm
      · rfl
      · exact htail _ hm
    | exposedWrapper k cs => exact noExposed_append htail
    | openSync k acc => exact noExposed_append htail
    | openNote kd cap al src => exact noExposed_append htail

theorem canPush_true {st : PState} (h1 : noExposed st)
    (h2 : collectingNote st = false) : canPush st = true := by
  obtain ⟨A, R, O⟩ := st
  cases O with
  | nil => rfl
  | cons f r =>
    cases f with
    | exposedWrapper k cs =>
      exact absurd (h1 _ (List.mem_cons_self _ _)) (by simp [OpenEntry.isExposed])
    | openNote kd cap al src => exact absurd h2 (by simp [collectingNote])
    | openCase k cl cap acc => rfl
    | openSync k acc => rfl

theorem pushEvents_some {st : PState} (es : List Event) (h1 : noExposed st)
    (h2 : collectingNote st = false) :
    ∃ st', pushEvents st es = some st' ∧ noExposed st' ∧ st'.opens.length = st.opens.length := by
  obtain ⟨A, R, O⟩ := st
  cases O with
  | nil => exact ⟨_, rfl, fun e he => absurd he (by simp), rfl⟩
  | cons f r =>
    have htail : ∀ e ∈ r, e.isExposed = false :=
      fun e' he' => h1 e' (List.mem_cons_of_mem _ he')
    cases f with
    | exposedWrapper k cs =>
      exact absurd (h1 _ (List.mem_cons_self _ _)) (by simp [OpenEntry.isExposed])
    | openNote kd cap al src => exact absurd h2 (by simp [collectingNote])
    | openCase k cl cap acc =>
      refine ⟨_, rfl, ?_, rfl⟩
      intro e he
      rcases List.mem_cons.1 he with rfl | hm
      · rfl
      · exact htail _ hm
    | openSync k acc =>
      refine ⟨_, rfl, ?_, rfl⟩
      intro e he
      rcases List.mem_cons.1 he with rfl | hm
      · rfl
      · exact htail _ hm

set_option maxHeartbeats 1000000 in
/-- Every line whose command is not `}` succeeds from a state with no exposed
wrapper and preserves that invariant (the only raising push is onto an
exposed wrapper, and only `}` can expose one). -/
theorem stepLine_progress (st : PState) (l : Str) (h1 : noExposed st)
    (hbr : (splitFirstSpace (trim l)).1 ≠ "\x7d".data) :
    ∃ st', stepLine st l = some st' ∧ noExposed st' := by
  by_cases hend : (splitFirstSpace (trim l)).1 = "end".data
  · refine ⟨stepEnd st, ?_, stepEnd_noExposed h1⟩
    simp only [stepLine]
    rw [if_pos hend]
  by_cases hnote : collectingNote st = true
  · -- multi-line absorption
    simp only [stepLine]
    rw [if_neg hend, if_pos hnote]
    obtain ⟨A, R, O⟩ := st
    cases O with
    | nil => exact ⟨_, rfl, h1⟩
    | cons f r =>
      have htail : ∀ e ∈ r, e.isExposed = false :=
        fun e' he' => h1 e' (List.mem_cons_of_mem _ he')
      cases f with
      | openNote kd cap al src =>
        refine ⟨_, rfl, ?_⟩
        intro e he
        rcases List.mem_cons.1 he with rfl | hm
        · rfl
        · exact htail _ hm
      | openCase k cl cap acc => exact ⟨_, rfl, h1⟩
      | exposedWrapper k cs => exact ⟨_, rfl, h1⟩
      | openSync k acc => exact ⟨_, rfl, h1⟩
  replace hnote : collectingNote st = false := by
    revert hnote; cases collectingNote st <;> simp
  have hpush := canPush_true h1 hnote
  simp only [stepLine]
  rw [if_neg hend, if_neg (by rw [hnote]; exact Bool.false_ne_true)]
  by_cases hann : (splitFirstSpace (trim l)).1 ∈ annotations
  · rw [if_pos hann]
    by_cases hml : ((splitOnChar ':' (splitFirstSpace (trim l)).2)[1]? = none ∨
        (splitOnChar ':' (splitFirstSpace (trim l)).2)[1]? = some [])
    · rw [if_pos hml, if_pos hpush]
      refine ⟨_, rfl, ?_⟩
      intro e he
      rcases List.mem_cons.1 he with rfl | hm
      · rfl
      · exact h1 _ hm
    · rw [if_neg hml]
      obtain ⟨st', hp, hn, _⟩ := pushEvents_some _ h1 hnote
      exact ⟨st', hp, hn⟩
  rw [if_neg hann]
  by_cases hpart : (splitFirstSpace (trim l)).1 ∈ participants
  · rw [if_pos hpart]
    exact ⟨_, rfl, h1⟩
  rw [if_neg hpart]
  by_cases hcond : (splitFirstSpace (trim l)).1 ∈ conditionalGroupings
  · rw [if_pos hcond, if_pos hpush]
    refine ⟨_, rfl, ?_⟩
    intro e he
    rcases List.mem_cons.1 he with rfl | hm
    · rfl
    · exact h1 _ hm
  rw [if_neg hcond]
  by_cases helse : (splitFirstSpace (trim l)).1 = "else".data
  · rw [if_pos helse]
    exact ⟨_, rfl, stepElse_noExposed _ h1⟩
  rw [if_neg helse]
  by_cases hlife : (splitFirstSpace (trim l)).1 ∈ lifetime
  · rw [if_pos hlife]
    obtain ⟨st', hp, hn, _⟩ := pushEvents_some _ h1 hnote
    exact ⟨st', hp, hn⟩
  rw [if_neg hlife]
  by_cases hsync : (splitFirstSpace (trim l)).1 ∈ synchrony
  · rw [if_pos hsync, if_pos hpush]
    refine ⟨_, rfl, ?_⟩
    intro e he
    rcases List.mem_cons.1 he with rfl | hm
    · rfl
    · exact h1 _ hm
  rw [if_neg hsync, if_neg hbr]
  by_cases hauto : (splitFirstSpace (trim l)).1 = "autonumber".data
  · rw [if_pos hauto]
    obtain ⟨st', hp, hn, _⟩ := pushEvents_some _ h1 hnote
    exact ⟨st', hp, hn⟩
  rw [if_neg hauto]
  by_cases hcomm : (splitFirstSpace (trim l)).1.head? = some '#'
  · rw [if_pos hcomm]
    exact ⟨_, rfl, h1⟩
  rw [if_neg hcomm]
  by_cases hguard : ((splitOnColonEscaped (trim l)).2 = [] ∨
      (splitOnArrow (splitOnColonEscaped (trim l)).1)[1]? = none ∨
      (splitOnArrow (splitOnColonEscaped (trim l)).1)[1]? = some [])
  · rw [if_pos hguard]
    exact ⟨_, rfl, h1⟩
  · rw [if_neg hguard]
    obtain ⟨st1, hp, hn1, _⟩ := pushEvents_some _ h1 hnote
    rw [hp, Option.map_some']
    refine ⟨_, rfl, ?_⟩
    split_ifs <;> exact hn1

theorem runLines_progress (ls : List Str) : ∀ st, noExposed st →
    (∀ l ∈ ls, (splitFirstSpace (trim l)).1 ≠ "\x7d".data) →
    ∃ st', runLines st ls = some st' ∧ noExposed st' := by
  induction ls with
  | nil => exact fun st h _ => ⟨st, rfl, h⟩
  | cons l ls ih =>
    intro st h hall
    obtain ⟨st1, hs, hn⟩ := stepLine_progress st l h (hall l (List.mem_cons_self _ _))
    obtain ⟨st', hr, hn'⟩ := ih st1 hn fun l' hl' => hall l' (List.mem_cons_of_mem _ hl')
    exact ⟨st', by simp [runLines, hs, hr], hn'⟩

/-! ## Layout lemmas -/

theorem getD_set_ge (l : List ℚ) (i j : ℕ) {v : ℚ} (h : l.getD i 0 ≤ v) :
    l.getD j 0 ≤ (l.set i v).getD j 0 := by
  rcases lt_or_ge i l.length with hb | hb
  · rcases eq_or_ne i j with rfl | hij
    · rw [List.getD_eq_getElem?_getD (l.set i v), List.getElem?_set_self hb]
      simpa using h
    · rw [List.getD_eq_getElem?_getD (l.set i v), List.getElem?_set_ne hij,
        List.getD_eq_getElem?_getD]
  · rw [List.set_eq_of_length_le hb]

theorem getD_addAt_le (l : List ℚ) (i j : ℕ) {v : ℚ} (hv : 0 ≤ v) :
    l.getD j 0 ≤ (addAt l i v).getD j 0 :=
  getD_set_ge l i j (le_add_of_nonneg_right hv)

theorem addAt_length (l : List ℚ) (i : ℕ) (v : ℚ) :
    (addAt l i v).length = l.length := by
  simp [addAt]

theorem localStep_le (g : List ℚ) (t : Triple) (j : ℕ) :
    g.getD j 0 ≤ (localStep g t).getD j 0 := by
  simp only [localStep]
  by_cases h1 : min t.1 t.2.1 + 1 = max t.1 t.2.1 ∧
      g.getD (min t.1 t.2.1 + 1) 0 < t.2.2
  · rw [if_pos h1]
    by_cases h2 : min t.1 t.2.1 = max t.1 t.2.1 ∧
        (g.set (min t.1 t.2.1 + 1) t.2.2).getD (min t.1 t.2.1) 0 < t.2.2
    · rw [if_pos h2]
      exact le_trans (getD_set_ge g _ j (le_of_lt h1.2))
        (getD_set_ge _ _ j (le_of_lt h2.2))
    · rw [if_neg h2]
      exact getD_set_ge g _ j (le_of_lt h1.2)
  · rw [if_neg h1]
    by_cases h2 : min t.1 t.2.1 = max t.1 t.2.1 ∧ g.getD (min t.1 t.2.1) 0 < t.2.2
    · rw [if_pos h2]
      exact getD_set_ge g _ j (le_of_lt h2.2)
    · rw [if_neg h2]

theorem localStep_length (g : List ℚ) (t : Triple) :
    (localStep g t).length = g.length := by
  simp only [localStep]
  split_ifs <;> simp

theorem localStep_adjacent (g : List ℚ) (t : Triple)
    (hadj : max t.1 t.2.1 = min t.1 t.2.1 + 1)
    (hb : max t.1 t.2.1 < g.length) :
    t.2.2 ≤ (localStep g t).getD (min t.1 t.2.1 + 1) 0 := by
  simp only [localStep]
  have hne : ¬min t.1 t.2.1 = max t.1 t.2.1 := by omega
  rw [if_neg (fun hh => hne hh.1)]
  by_cases hlt : g.getD (min t.1 t.2.1 + 1) 0 < t.2.2
  · rw [if_pos ⟨hadj.symm, hlt⟩, List.getD_eq_getElem?_getD,
      List.getElem?_set_self (by omega)]
    simp
  · rw [if_neg (fun hh => hlt hh.2)]
    exact le_of_not_lt hlt

theorem localPass_le : ∀ (ts : List Triple) (g : List ℚ) (j : ℕ),
    g.getD j 0 ≤ (localPass g ts).getD j 0
  | [], _, _ => le_refl _
  | t :: ts, g, j =>
    le_trans (localStep_le g t j) (localPass_le ts (localStep g t) j)

theorem localPass_length : ∀ (ts : List Triple) (g : List ℚ),
    (localPass g ts).length = g.length
  | [], _ => rfl
  | t :: ts, g => by
    rw [localPass, localPass_length ts, localStep_length]

theorem localPass_adjacent : ∀ (ts : List Triple) (g : List ℚ) (t : Triple),
    t ∈ ts → max t.1 t.2.1 = min t.1 t.2.1 + 1 → max t.1 t.2.1 < g.length →
    t.2.2 ≤ (localPass g ts).getD (min t.1 t.2.1 + 1) 0 := by
  intro ts
  induction ts with
  | nil => intro g t ht _ _; exact absurd ht (List.not_mem_nil t)
  | cons u us ih =>
    intro g t ht hadj hb
    rcases List.mem_cons.1 ht with rfl | hm
    · exact le_trans (localStep_adjacent g t hadj hb)
        (localPass_le us (localStep g t) _)
    · exact ih (localStep g u) t hm hadj (by rw [localStep_length]; exact hb)

theorem addRangeAux_le {v : ℚ} (hv : 0 ≤ v) :
    ∀ (n j0 : ℕ) (g : List ℚ) (j : ℕ),
    g.getD j 0 ≤ (addRangeAux v j0 n g).getD j 0
  | 0, _, _, _ => le_refl _
  | n + 1, j0, g, j =>
    le_trans (getD_addAt_le g (j0 + 1) j hv)
      (addRangeAux_le hv n (j0 + 1) (addAt g (j0 + 1) v) j)

theorem addRangeAux_length (v : ℚ) : ∀ (n j0 : ℕ) (g : List ℚ),
    (addRangeAux v j0 n g).length = g.length
  | 0, _, _ => rfl
  | n + 1, j0, g => by
    rw [addRangeAux, addRangeAux_length v n, addAt_length]

theorem distStep_le (g : List ℚ) (t : Triple) (j : ℕ) :
    g.getD j 0 ≤ (distStep g t).getD j 0 := by
  simp only [distStep]
  split_ifs with h1 h2
  · exact addRangeAux_le (le_of_lt h2) _ _ g j
  · exact le_refl _
  · exact le_refl _

theorem distStep_length (g : List ℚ) (t : Triple) :
    (distStep g t).length = g.length := by
  simp only [distStep]
  split_ifs with h1 h2
  · exact addRangeAux_length _ _ _ g
  · rfl
  · rfl

theorem distPass_le : ∀ (ts : List Triple) (g : List ℚ) (j : ℕ),
    g.getD j 0 ≤ (distPass g ts).getD j 0
  | [], _, _ => le_refl _
  | t :: ts, g, j =>
    le_trans (distStep_le g t j) (distPass_le ts (distStep g t) j)

theorem distPass_length : ∀ (ts : List Triple) (g : List ℚ),
    (distPass g ts).length = g.length
  | [], _ => rfl
  | t :: ts, g => by
    rw [distPass, distPass_length ts, distStep_length]

theorem sumRangeAux_succ (g : List ℚ) : ∀ (n lo : ℕ),
    sumRangeAux g lo (n + 1) = sumRangeAux g lo n + g.getD (lo + n) 0 := by
  intro n
  induction n with
  | zero => intro lo; simp [sumRangeAux]
  | succ k ih =>
    intro lo
    rw [sumRangeAux, ih (lo + 1), sumRangeAux]
    have : lo + 1 + k = lo + (k + 1) := by omega
    rw [this]
    ring

theorem placeActorsAux_length (pad : ℚ) (gaps : List ℚ) :
    ∀ (as : List PActor) (i : ℕ) (off mh : ℚ),
    (placeActorsAux pad gaps as i off mh).1.length = as.length
  | [], _, _, _ => rfl
  | a :: rest, i, off, mh => by
    simp only [placeActorsAux, List.length_cons]
    rw [placeActorsAux_length pad gaps rest]

theorem placeActorsAux_lineX (pad : ℚ) (gaps : List ℚ) :
    ∀ (as : List PActor) (i : ℕ) (off mh : ℚ) (k : ℕ) (pa : PActor),
    (placeActorsAux pad gaps as i off mh).1[k]? = some pa →
    pa.lineX = off + sumRangeAux gaps (i + 1) k := by
  intro as
  induction as with
  | nil => intro i off mh k pa h; simp [placeActorsAux] at h
  | cons a rest ih =>
    intro i off mh k pa h
    cases k with
    | zero =>
      simp only [placeActorsAux, List.getElem?_cons_zero, Option.some.injEq] at h
      subst h
      simp [sumRangeAux]
    | succ k =>
      simp only [placeActorsAux, List.getElem?_cons_succ] at h
      rw [ih (i + 1) _ _ k pa h]
      have hs : sumRangeAux gaps (i + 1) (k + 1)
          = gaps.getD (i + 1) 0 + sumRangeAux gaps (i + 1 + 1) k := rfl
      rw [hs]
      ring

theorem placeActorsAux_mem (pad : ℚ) (gaps : List ℚ) :
    ∀ (as : List PActor) (i : ℕ) (off mh : ℚ) (pa : PActor),
    pa ∈ (placeActorsAux pad gaps as i off mh).1 →
    ∃ a ∈ as, pa.width = a.width ∧ pa.caption = a.caption := by
  intro as
  induction as with
  | nil => intro i off mh pa h; simp [placeActorsAux] at h
  | cons a rest ih =>
    intro i off mh pa h
    simp only [placeActorsAux] at h
    rcases List.mem_cons.1 h with rfl | hm
    · exact ⟨a, List.mem_cons_self _ _, rfl, rfl⟩
    · obtain ⟨a', ha', hw, hc⟩ := ih (i + 1) _ _ pa hm
      exact ⟨a', List.mem_cons_of_mem _ ha', hw, hc⟩

/-! ## Claim theorems: parser -/

/-- Claim C1, counterexample: parsing is *not* exception-free for all script
texts — on `alt x\n}\nA->B: hi` the `}` pops the open case's events array and
leaves the `alt` wrapper object on top of the stack, so the signal line's
`eventStack.at(-1).push(...)` raises a `TypeError` (modelled as `none`). -/
theorem C1_counterexample : parseString "alt x\n\x7d\nA->B: hi" = none := rfl

/-- Claim C1, amended: `parseScriptToArrays` returns an `(actors, events)`
pair — absorbing, dropping or degrading malformed lines — for every script
in which no line's command token is `}`; a `}` line can expose an open
conditional grouping's wrapper, after which a line that appends an event
raises a `TypeError`. -/
theorem C1_amended_no_brace_no_raise :
    ∀ script : Str,
      (∀ l ∈ splitOnChar '\n' script, (splitFirstSpace (trim l)).1 ≠ "\x7d".data) →
      ∃ r, parseScriptToArrays script = some r := by
  intro script h
  obtain ⟨st', hr, _⟩ := runLines_progress (splitOnChar '\n' script) initState
    (fun e he => (List.not_mem_nil e he).elim) h
  exact ⟨finalize st', by simp [parseScriptToArrays, hr]⟩

theorem C1_witness :
    ∃ r, parseScriptToArrays "alt x\nA->B: hi\nend".data = some r :=
  C1_amended_no_brace_no_raise "alt x\nA->B: hi\nend".data (by decide)

/-- Claim C3: the parser's nesting stack always has at least one entry (the
root sequence), and an `end` line processed while only the root sequence is
open is a no-op: the returned actors and events are the same as if the line
were absent. -/
theorem C3_stack_and_end_noop :
    (∀ (pre : List Str) (st : PState), runLines initState pre = some st →
      1 ≤ jsStackLen st)
    ∧ (∀ (pre suf : List Str) (st : PState), runLines initState pre = some st →
      st.opens = [] →
      (runLines initState (pre ++ "end".data :: suf)).map finalize =
        (runLines initState (pre ++ suf)).map finalize) := by
  constructor
  · intro pre st _
    simp [jsStackLen]
  · intro pre suf st hpre hopens
    rw [runLines_append, runLines_append, hpre]
    have h1 : runLines st ("end".data :: suf) = runLines (stepEnd st) suf := rfl
    show ((runLines st ("end".data :: suf)).map finalize) =
      ((runLines st suf).map finalize)
    rw [h1, stepEnd_root hopens]

theorem C3_witness :
    1 ≤ jsStackLen ⟨[⟨"participant".data, "A".data, none⟩,
        ⟨"participant".data, "B".data, none⟩],
        [.signal "x".data "A".data "B".data false false], []⟩
    ∧ (runLines initState (["A->B: x".data] ++ "end".data :: ["B->A: y".data])).map finalize =
      (runLines initState (["A->B: x".data] ++ ["B->A: y".data])).map finalize :=
  ⟨C3_stack_and_end_noop.1 ["A->B: x".data] _ (by rfl),
   C3_stack_and_end_noop.2 ["A->B: x".data] ["B->A: y".data] _ (by rfl) rfl⟩

/-- Claim C5, counterexample: for the single-line annotation
`note left of A: x:y`, everything after the first `:`, trimmed, is `x:y`,
but the parsed caption is only `x` — `text.split(':')` (source line 150)
discards everything after a second colon. -/
theorem C5_counterexample :
    parseString "note left of A: x:y" =
      some ([], [.annot "note".data "x".data "left".data (some "A".data)])
    ∧ ("x".data : Str) ≠ "x:y".data :=
  ⟨rfl, by decide⟩

/-- Claim C5, amended: for a single-line annotation the caption is the text
strictly between the first and the second `:` of the rest of the line
(the second piece of `text.split(':')`), trimmed; text after a further `:`
is dropped. -/
theorem C5_amended_caption_between_colons :
    ∀ kd, kd ∈ annotations → ∀ (text c : Str) (A : List Actor) (R : List Event),
      trim (kd ++ ' ' :: text) = kd ++ ' ' :: text →
      (splitOnChar ':' text)[1]? = some c → c ≠ [] →
      ∃ al sr, stepLine ⟨A, R, []⟩ (kd ++ ' ' :: text) =
        some ⟨A, R ++ [.annot kd (trim c) al sr], []⟩ := by
  intro kd hkd text c A R htrim hidx hc
  have hsp : ' ' ∉ kd := by fin_cases hkd <;> decide
  have hne : ¬kd = "end".data := by fin_cases hkd <;> decide
  refine ⟨(splitOnChar ' ' ((splitOnChar ':' text).headD [])).headD [],
    (splitOnChar ' ' ((splitOnChar ':' text).headD []))[2]?, ?_⟩
  simp only [stepLine, htrim, splitFirstSpace_sep text hsp, hne, hidx,
    collectingNote, pushEvents, hkd]
  simp [hc, hidx]

theorem C5_witness :
    ∃ al sr, stepLine ⟨[], [], []⟩ ("note".data ++ ' ' :: "left of A: x:y".data) =
      some ⟨[], [] ++ [.annot "note".data (trim " x".data) al sr], []⟩ :=
  C5_amended_caption_between_colons "note".data (by decide) "left of A: x:y".data
    " x".data [] [] (by decide) (by decide) (by decide)

/-- Claim C6, counterexample: with `participant Alice as A` declared, the
line `A->Alice: hi` does append a new bare participant with caption `A`
(the source looks actors up by `caption`, never by `alias`, line 279), so
the actors list has two entries, not one. -/
theorem C6_counterexample :
    (parseString "participant Alice as A\nA->Alice: hi").map (fun r => r.1.length) = some 2
    ∧ (parseString "participant Alice as A\nA->Alice: hi").map (fun r => r.1.length) ≠ some 1 :=
  ⟨rfl, by decide⟩

/-- Claim C6, amended: signals resolve actors by caption only; the alias is
stored but never consulted.  With `participant Alice as A` declared,
`A->Alice: hi` appends a new bare participant with caption `A` and produces
a signal with source `A` and destination `Alice`. -/
theorem C6_amended_caption_resolution :
    parseString "participant Alice as A\nA->Alice: hi" =
      some ([⟨"participant".data, "Alice".data, some "A".data⟩,
             ⟨"participant".data, "A".data, none⟩],
            [.signal "hi".data "A".data "Alice".data false false]) := rfl

/-- Claim C7, counterexample: the line `->B: hi` has an empty source side of
`->`, yet it is not dropped: the guard (source line 232) checks only the
caption and the destination, so a signal event is appended and an
empty-caption participant is auto-created. -/
theorem C7_counterexample :
    parseString "->B: hi" =
      some ([⟨"participant".data, [], none⟩, ⟨"participant".data, "B".data, none⟩],
            [.signal "hi".data [] "B".data false false])
    ∧ (parseString "->B: hi").map (fun r => r.2.length) ≠ some 0 :=
  ⟨rfl, by decide⟩

/-- Claim C7, amended: a non-keyword line is silently dropped when the text
after the first unquoted `:` is empty or the `->` is absent or the text
after `->` is empty; but an empty *source* side still produces a signal
event (and auto-creates an empty-caption participant). -/
theorem C7_amended_drop_conditions :
    (∀ (st : PState) (line : Str),
      collectingNote st = false →
      (splitFirstSpace (trim line)).1 ≠ "end".data →
      (splitFirstSpace (trim line)).1 ∉ annotations →
      (splitFirstSpace (trim line)).1 ∉ participants →
      (splitFirstSpace (trim line)).1 ∉ conditionalGroupings →
      (splitFirstSpace (trim line)).1 ≠ "else".data →
      (splitFirstSpace (trim line)).1 ∉ lifetime →
      (splitFirstSpace (trim line)).1 ∉ synchrony →
      (splitFirstSpace (trim line)).1 ≠ "\x7d".data →
      (splitFirstSpace (trim line)).1 ≠ "autonumber".data →
      (splitFirstSpace (trim line)).1.head? ≠ some '#' →
      ((splitOnColonEscaped (trim line)).2 = [] ∨
        (splitOnArrow (splitOnColonEscaped (trim line)).1)[1]? = none ∨
        (splitOnArrow (splitOnColonEscaped (trim line)).1)[1]? = some []) →
      stepLine st line = some st)
    ∧ parseString "->B: hi" =
      some ([⟨"participant".data, [], none⟩, ⟨"participant".data, "B".data, none⟩],
            [.signal "hi".data [] "B".data false false]) := by
  refine ⟨fun st line h0 h1 h2 h3 h4 h5 h6 h7 h8 h9 h10 hdrop => ?_, rfl⟩
  simp only [stepLine, h0, if_neg h1, if_neg h2, if_neg h3, if_neg h4, if_neg h5,
    if_neg h6, if_neg h7, if_neg h8, if_neg h9, if_neg h10, Bool.false_eq_true,
    if_false]
  rw [if_pos hdrop]

theorem C7_witness :
    stepLine initState "A->: hi".data = some initState :=
  C7_amended_drop_conditions.1 initState "A->: hi".data rfl (by decide) (by decide)
    (by decide) (by decide) (by decide) (by decide) (by decide) (by decide)
    (by decide) (by decide) (by decide)

/-- Claim C8, counterexample: an `else` line inside an open `parallel` block
does not leave the parser state unchanged — it pops (closes) the parallel
block, so the following signal lands at the root instead of inside it. -/
theorem C8_counterexample :
    parseString "parallel\nelse\nA->B: x" =
      some ([⟨"participant".data, "A".data, none⟩, ⟨"participant".data, "B".data, none⟩],
            [.sync "parallel".data [], .signal "x".data "A".data "B".data false false])
    ∧ parseString "parallel\nA->B: x" =
      some ([⟨"participant".data, "A".data, none⟩, ⟨"participant".data, "B".data, none⟩],
            [.sync "parallel".data [.signal "x".data "A".data "B".data false false]])
    ∧ parseString "parallel\nelse\nA->B: x" ≠ parseString "parallel\nA->B: x" := by
  refine ⟨rfl, rfl, fun h => ?_⟩
  rw [show parseString "parallel\nelse\nA->B: x" =
      some ([⟨"participant".data, "A".data, none⟩, ⟨"participant".data, "B".data, none⟩],
        [.sync "parallel".data [], .signal "x".data "A".data "B".data false false]) from rfl,
    show parseString "parallel\nA->B: x" =
      some ([⟨"participant".data, "A".data, none⟩, ⟨"participant".data, "B".data, none⟩],
        [.sync "parallel".data [.signal "x".data "A".data "B".data false false]]) from rfl] at h
  simp at h

/-- Claim C8, amended: `else` first pops one nesting level whenever the stack
is deeper than the root; only when the exposed level is a conditional
grouping does it then open a new case.  At the root it is a no-op, but
inside a `parallel`/`serial` block it closes that block. -/
theorem C8_amended_else_pops :
    (∀ (A : List Actor) (R : List Event),
      stepLine ⟨A, R, []⟩ "else b".data = some ⟨A, R, []⟩)
    ∧ (∀ (A : List Actor) (R : List Event) (k : Str) (acc : List Event)
        (rest : List OpenEntry),
      stepLine ⟨A, R, .openSync k acc :: rest⟩ "else b".data =
        some (appendClosed ⟨A, R, .openSync k acc :: rest⟩ rest (.sync k acc)))
    ∧ (∀ (A : List Actor) (R : List Event) (k cap : Str)
        (cl : List (Str × List Event)) (acc : List Event) (rest : List OpenEntry),
      stepLine ⟨A, R, .openCase k cl cap acc :: rest⟩ "else b".data =
        some ⟨A, R, .openCase k (cl ++ [(cap, acc)]) "b".data [] :: rest⟩) :=
  ⟨fun _ _ => rfl, fun _ _ _ _ _ => rfl, fun _ _ _ _ _ _ _ => rfl⟩

/-- Claim C9: explicit and implicit lifetime events have different shapes —
`activate X` as its own line appends `group kind [(X, [])]` (the
`{type, cases:[{caption, events:[]}]}` literal of source line 198, no `src`
field), while a `+` suffix on a signal destination appends
`life "activate" dest` (the `{type, src}` literal of line 270, no `cases`
field); neither alters the nesting stack. -/
theorem C9_lifetime_shapes :
    (∀ (A : List Actor) (R : List Event) (kd X : Str), kd ∈ lifetime →
      trim (kd ++ ' ' :: X) = kd ++ ' ' :: X →
      stepLine ⟨A, R, []⟩ (kd ++ ' ' :: X) =
        some ⟨A, R ++ [.group kd [(X, [])]], []⟩)
    ∧ (∀ (A : List Actor) (R : List Event) (kd X k : Str) (acc : List Event)
        (rest : List OpenEntry), kd ∈ lifetime →
      trim (kd ++ ' ' :: X) = kd ++ ' ' :: X →
      stepLine ⟨A, R, .openSync k acc :: rest⟩ (kd ++ ' ' :: X) =
        some ⟨A, R, .openSync k (acc ++ [.group kd [(X, [])]]) :: rest⟩)
    ∧ parseString "A->+B: hi" =
      some ([⟨"participant".data, "A".data, none⟩, ⟨"participant".data, "B".data, none⟩],
            [.signal "hi".data "A".data "B".data false false,
             .life "activate".data "B".data]) := by
  refine ⟨?_, ?_, rfl⟩
  · intro A R kd X hkd htrim
    have hsp : ' ' ∉ kd := by fin_cases hkd <;> decide
    have h1 : ¬kd = "end".data := by fin_cases hkd <;> decide
    have h2 : kd ∉ annotations := by fin_cases hkd <;> decide
    have h3 : kd ∉ participants := by fin_cases hkd <;> decide
    have h4 : kd ∉ conditionalGroupings := by fin_cases hkd <;> decide
    have h5 : ¬kd = "else".data := by fin_cases hkd <;> decide
    simp only [stepLine, htrim, splitFirstSpace_sep X hsp, h1, h2, h3, h4, h5, hkd,
      collectingNote, pushEvents]
    simp
  · intro A R kd X k acc rest hkd htrim
    have hsp : ' ' ∉ kd := by fin_cases hkd <;> decide
    have h1 : ¬kd = "end".data := by fin_cases hkd <;> decide
    have h2 : kd ∉ annotations := by fin_cases hkd <;> decide
    have h3 : kd ∉ participants := by fin_cases hkd <;> decide
    have h4 : kd ∉ conditionalGroupings := by fin_cases hkd <;> decide
    have h5 : ¬kd = "else".data := by fin_cases hkd <;> decide
    simp only [stepLine, htrim, splitFirstSpace_sep X hsp, h1, h2, h3, h4, h5, hkd,
      collectingNote, pushEvents]
    simp

theorem C9_witness :
    stepLine ⟨[], [], []⟩ ("activate".data ++ ' ' :: "X".data) =
      some ⟨[], [] ++ [.group "activate".data [("X".data, [])]], []⟩ :=
  C9_lifetime_shapes.1 [] [] "activate".data "X".data (by decide) (by decide)

/-- Claim C10: when a trimmed line contains no space, both the command and
the rest are the whole line (`slice(-1 + 1)` is `slice(0)`), so a bare
`autonumber` line appends a numbering marker whose start is the string
`autonumber`, and a bare `participant` line appends an actor whose caption
is `participant`. -/
theorem C10_rest_is_whole_line :
    (∀ l : Str, ' ' ∉ l → splitFirstSpace l = (l, l))
    ∧ parseString "autonumber" = some ([], [.auton "autonumber".data])
    ∧ parseString "participant" =
      some ([⟨"participant".data, "participant".data, some "participant".data⟩], []) := by
  refine ⟨fun l h => ?_, rfl, rfl⟩
  simp [splitFirstSpace, breakOnSpace_eq_none h]

theorem C10_witness :
    splitFirstSpace "autonumber".data = ("autonumber".data, "autonumber".data) :=
  C10_rest_is_whole_line.1 "autonumber".data (by decide)

/-! ## Claim theorems: layout -/

theorem initGapsAux_length (sizes : Sizes) :
    ∀ (as : List PActor) (i : ℕ) (g : List ℚ),
    (initGapsAux sizes as i g).length = g.length
  | [], _, _ => rfl
  | a :: rest, i, g => by
    rw [initGapsAux, initGapsAux_length sizes rest, addAt_length, addAt_length]

theorem initGaps_length (sizes : Sizes) (as : List PActor) :
    (initGaps sizes as).length = as.length + 1 := by
  rw [initGaps, initGapsAux_length, List.length_replicate]

theorem lineY_update_lineX (a : PActor) (v : ℚ) :
    ({ a with lineY := v }).lineX = a.lineX := rfl

theorem lineY_update_width (a : PActor) (v : ℚ) :
    ({ a with lineY := v }).width = a.width := rfl

theorem lineY_update_caption (a : PActor) (v : ℚ) :
    ({ a with lineY := v }).caption = a.caption := rfl

theorem casePlacements_endY (adict : Str → Option PActor) (sizes : Sizes)
    (tw : ℚ) : ∀ (cs : List PCase) (y : ℚ),
    (casePlacements adict sizes tw cs y).1 =
      y + (casePlacements adict sizes tw cs y).2.2
  | [], y => by simp [casePlacements]
  | .mk c es h :: cs, y => by
    simp only [casePlacements]
    rw [casePlacements_endY adict sizes tw cs]
    ring

theorem casePlacements_sum (adict : Str → Option PActor) (sizes : Sizes)
    (tw : ℚ) : ∀ (cs : List PCase) (y : ℚ),
    (casePlacements adict sizes tw cs y).2.2 =
      (((casePlacements adict sizes tw cs y).2.1).map PCase.heightD).sum
  | [], y => by simp [casePlacements]
  | .mk c es h :: cs, y => by
    simp only [casePlacements, List.map_cons, List.sum_cons, PCase.heightD,
      Option.getD_some]
    rw [← casePlacements_sum adict sizes tw cs]

theorem gapsCases_flatten (aidx : Str → Option ℕ) (sizes : Sizes) :
    ∀ (cs : List PCase),
    (gapsCases aidx sizes cs).1 =
      (cs.map fun pc =>
        (calculateLaneGapsAndTextSize aidx sizes pc.eventsOf).1).flatten
  | [] => by simp [gapsCases]
  | .mk c es h :: cs => by
    simp only [gapsCases, List.map_cons, List.flatten_cons]
    rw [gapsCases_flatten aidx sizes cs]
    rfl

/-- Claim C2, counterexample: in `opt c / A->B: x / end`, the nested signal
contributes no spacing triple and the `opt` grouping receives no geometry —
the walks test `e.type == "alt"` (source lines 426 and 462), so only `alt`
groupings are descended into. -/
theorem C2_counterexample :
    pipelineTriples
      [⟨"participant".data, "A".data, none⟩, ⟨"participant".data, "B".data, none⟩]
      [.group "opt".data [("c".data, [.signal "x".data "A".data "B".data false false])]]
      asciiSizes = []
    ∧ ¬ ∃ cs x y w h,
      (calculatePlacements
        [⟨"participant".data, "A".data, none⟩, ⟨"participant".data, "B".data, none⟩]
        [.group "opt".data [("c".data, [.signal "x".data "A".data "B".data false false])]]
        asciiSizes).events.head?
        = some (.group "opt".data cs (some x) (some y) (some w) (some h)) := by
  constructor
  · rfl
  · rintro ⟨cs, x, y, w, h, hh⟩
    rw [show (calculatePlacements
        [⟨"participant".data, "A".data, none⟩, ⟨"participant".data, "B".data, none⟩]
        [.group "opt".data [("c".data, [.signal "x".data "A".data "B".data false false])]]
        asciiSizes).events.head?
        = some (.group "opt".data
            [.mk "c".data [.signal "x".data "A".data "B".data false false
              none none none none none none] none] none none none none) from rfl] at hh
    simp at hh

/-- Claim C2, amended: the gap-collection and vertical-placement walks
descend only into groupings of kind `alt`.  For an `alt`, every case's
nested sequence is laid out at the advancing cursor, the grouping gets
`x = 0`, `y = cursor`, `width` = canvas width and `height` = the fixed
minimum plus the sum of the case heights, and the cursor after the cases
equals the cursor before them plus that sum; its gap triples are the
concatenation of every case's triples.  Groupings of kind `opt`, `loop`,
`par` or `seq` are left untouched: no triples, no geometry, no cursor
advance. -/
theorem C2_amended_only_alt_descends :
    (∀ (adict : Str → Option PActor) (sizes : Sizes) (tw : ℚ) (cs : List PCase)
        (gx gy gw gh : Option ℚ) (y : ℚ),
      placeOne adict sizes tw (.group "alt".data cs gx gy gw gh) y =
        ((casePlacements adict sizes tw cs (y + sizes.altMarginItems)).1
            + sizes.altMarginBottom,
         .group "alt".data
           (casePlacements adict sizes tw cs (y + sizes.altMarginItems)).2.1
           (some 0) (some y) (some tw)
           (some (sizes.altMinHeight +
             (((casePlacements adict sizes tw cs (y + sizes.altMarginItems)).2.1).map
               PCase.heightD).sum)))
      ∧ (casePlacements adict sizes tw cs (y + sizes.altMarginItems)).1 =
          (y + sizes.altMarginItems) +
          (((casePlacements adict sizes tw cs (y + sizes.altMarginItems)).2.1).map
            PCase.heightD).sum)
    ∧ (∀ (aidx : Str → Option ℕ) (sizes : Sizes) (cs : List PCase)
        (gx gy gw gh : Option ℚ),
      (gapsOne aidx sizes (.group "alt".data cs gx gy gw gh)).1 =
        (cs.map fun pc =>
          (calculateLaneGapsAndTextSize aidx sizes pc.eventsOf).1).flatten)
    ∧ (∀ kd, kd ∈ conditionalGroupings → kd ≠ "alt".data →
        ∀ (adict : Str → Option PActor) (aidx : Str → Option ℕ) (sizes : Sizes)
          (tw : ℚ) (cs : List PCase) (gx gy gw gh : Option ℚ) (y : ℚ),
        placeOne adict sizes tw (.group kd cs gx gy gw gh) y =
          (y, .group kd cs gx gy gw gh)
        ∧ (gapsOne aidx sizes (.group kd cs gx gy gw gh)).1 = []) := by
  refine ⟨?_, ?_, ?_⟩
  · intro adict sizes tw cs gx gy gw gh y
    constructor
    · simp only [placeOne]
      split_ifs with hcond
      · rw [← casePlacements_sum]
      · first
        | exact absurd rfl hcond
        | exact absurd trivial hcond
    · rw [casePlacements_endY, ← casePlacements_sum]
  · intro aidx sizes cs gx gy gw gh
    simp only [gapsOne]
    split_ifs with hcond
    · exact gapsCases_flatten aidx sizes cs
    · first
      | exact absurd rfl hcond
      | exact absurd trivial hcond
  · intro kd hkd hne adict aidx sizes tw cs gx gy gw gh y
    fin_cases hkd
    · exact absurd rfl hne
    · exact ⟨rfl, rfl⟩
    · exact ⟨rfl, rfl⟩
    · exact ⟨rfl, rfl⟩
    · exact ⟨rfl, rfl⟩

theorem C2_witness :
    placeOne (fun _ => none) asciiSizes 0
        (.group "opt".data [] none none none none) 0 =
      (0, .group "opt".data [] none none none none)
    ∧ (gapsOne (fun _ => none) asciiSizes
        (.group "opt".data [] none none none none)).1 = [] :=
  C2_amended_only_alt_descends.2.2 "opt".data (by decide) (by decide)
    (fun _ => none) (fun _ => none) asciiSizes 0 [] none none none none 0

theorem placeActors_length (pad : ℚ) (gaps : List ℚ) (as : List PActor) :
    (placeActors pad gaps as).1.length = as.length :=
  placeActorsAux_length pad gaps as 0 (gaps.getD 0 0) 0

theorem adjacent_gap_bound (pad : ℚ) (T : List Triple) (g0 : List ℚ)
    (sized : List PActor) (t : Triple)
    (ht : t ∈ T) (hadj : max t.1 t.2.1 = min t.1 t.2.1 + 1)
    (hb : max t.1 t.2.1 < g0.length) (pa1 pa2 : PActor)
    (h1 : (placeActors pad (distPass (localPass g0 T) T) sized).1[min t.1 t.2.1]?
        = some pa1)
    (h2 : (placeActors pad (distPass (localPass g0 T) T) sized).1[max t.1 t.2.1]?
        = some pa2) :
    t.2.2 ≤ |pa2.lineX - pa1.lineX| := by
  have hx1 := placeActorsAux_lineX pad (distPass (localPass g0 T) T) sized 0
    ((distPass (localPass g0 T) T).getD 0 0) 0 (min t.1 t.2.1) pa1 h1
  have hx2 := placeActorsAux_lineX pad (distPass (localPass g0 T) T) sized 0
    ((distPass (localPass g0 T) T).getD 0 0) 0 (max t.1 t.2.1) pa2 h2
  rw [hadj] at hx2
  have hdiff : pa2.lineX - pa1.lineX
      = (distPass (localPass g0 T) T).getD (min t.1 t.2.1 + 1) 0 := by
    rw [hx1, hx2, sumRangeAux_succ]
    have he : 0 + 1 + min t.1 t.2.1 = min t.1 t.2.1 + 1 := by omega
    rw [he]
    ring
  have hloc : t.2.2 ≤ (localPass g0 T).getD (min t.1 t.2.1 + 1) 0 :=
    localPass_adjacent T g0 t ht hadj hb
  have hdist := distPass_le T (localPass g0 T) (min t.1 t.2.1 + 1)
  calc t.2.2 ≤ (distPass (localPass g0 T) T).getD (min t.1 t.2.1 + 1) 0 :=
        le_trans hloc hdist
    _ = pa2.lineX - pa1.lineX := hdiff.symm
    _ ≤ |pa2.lineX - pa1.lineX| := le_abs_self _

/-- Claim C4: after layout every actor's width is its measured caption width
plus two paddings, and for every collected spacing triple whose lane indices
are adjacent, the distance between the two actors' lane centers is at least
the triple's minimum width. -/
theorem C4_widths_and_adjacent_gaps :
    ∀ (actors : List Actor) (events : List Event) (sizes : Sizes),
      (∀ pa ∈ (calculatePlacements actors events sizes).actors,
        pa.width = (sizes.calculateTextDimensions pa.caption).width
          + 2 * sizes.padding)
      ∧ (∀ t ∈ pipelineTriples actors events sizes,
          max t.1 t.2.1 = min t.1 t.2.1 + 1 →
          ∀ pa1 pa2,
            (calculatePlacements actors events sizes).actors[min t.1 t.2.1]?
              = some pa1 →
            (calculatePlacements actors events sizes).actors[max t.1 t.2.1]?
              = some pa2 →
            t.2.2 ≤ |pa2.lineX - pa1.lineX|) := by
  intro actors events sizes
  constructor
  · intro pa hpa
    simp only [calculatePlacements] at hpa
    rcases List.mem_map.1 hpa with ⟨pb, hpb, rfl⟩
    rw [lineY_update_width, lineY_update_caption]
    obtain ⟨a, ha, hw, hc⟩ := placeActorsAux_mem _ _ _ _ _ _ pb hpb
    rcases List.mem_map.1 ha with ⟨a0, _, rfl⟩
    rw [hw, hc]
    rfl
  · intro t ht hadj pa1 pa2 h1 h2
    simp only [calculatePlacements] at h1 h2
    rw [List.getElem?_map] at h1 h2
    rcases Option.map_eq_some'.1 h1 with ⟨pb1, hb1, rfl⟩
    rcases Option.map_eq_some'.1 h2 with ⟨pb2, hb2, rfl⟩
    rw [lineY_update_lineX, lineY_update_lineX]
    have hlen : max t.1 t.2.1 < actors.length := by
      obtain ⟨hlt, _⟩ := List.getElem?_eq_some.1 hb2
      rw [placeActors_length, List.length_map] at hlt
      exact hlt
    exact adjacent_gap_bound sizes.padding
      (pipelineTriples actors events sizes)
      (initGaps sizes (actors.map (actorSized sizes)))
      (actors.map (actorSized sizes)) t ht hadj
      (by rw [initGaps_length, List.length_map]; omega) pb1 pb2 hb1 hb2

theorem C4_witness :
    (⟨"participant".data, "A".data, none, 3, 3, 1, 1, 5/2, 9⟩ : PActor).width =
      (asciiSizes.calculateTextDimensions
        (⟨"participant".data, "A".data, none, 3, 3, 1, 1, 5/2, 9⟩ : PActor).caption).width
        + 2 * asciiSizes.padding
    ∧ ((0, 1, 4) : Triple).2.2 ≤
      |(⟨"participant".data, "B".data, none, 3, 3, 6, 1, 15/2, 9⟩ : PActor).lineX -
        (⟨"participant".data, "A".data, none, 3, 3, 1, 1, 5/2, 9⟩ : PActor).lineX| := by
  have hplaced : (calculatePlacements
      [⟨"participant".data, "A".data, none⟩, ⟨"participant".data, "B".data, none⟩]
      [.signal "hi".data "A".data "B".data false false] asciiSizes).actors =
      [⟨"participant".data, "A".data, none, 3, 3, 1, 1, 5/2, 9⟩,
       ⟨"participant".data, "B".data, none, 3, 3, 6, 1, 15/2, 9⟩] := by
    simp [calculatePlacements, calculateLaneGapsAndTextSize, gapsOne, toPList,
      Event.toP, actorIdx, actorIdxAux, asciiSizes, calculateTextDimensionsAscii,
      splitNewlines, consHead, actorSized, initGaps, initGapsAux, addAt,
      localPass, localStep, distPass, distStep, sumRange, sumRangeAux, addRange,
      addRangeAux, placeActors, placeActorsAux, calculateEventPlacements,
      placeOne, casePlacements]
    norm_num
  have hT : pipelineTriples
      [⟨"participant".data, "A".data, none⟩, ⟨"participant".data, "B".data, none⟩]
      [.signal "hi".data "A".data "B".data false false] asciiSizes =
      [((0 : ℕ), (1 : ℕ), (4 : ℚ))] := by
    simp [pipelineTriples, calculateLaneGapsAndTextSize, gapsOne, toPList,
      Event.toP, actorIdx, actorIdxAux, asciiSizes, calculateTextDimensionsAscii,
      splitNewlines, consHead]
    norm_num
  refine ⟨?_, ?_⟩
  · exact (C4_widths_and_adjacent_gaps
      [⟨"participant".data, "A".data, none⟩, ⟨"participant".data, "B".data, none⟩]
      [.signal "hi".data "A".data "B".data false false] asciiSizes).1 _
      (by rw [hplaced]; exact List.mem_cons_self _ _)
  · exact (C4_widths_and_adjacent_gaps
      [⟨"participant".data, "A".data, none⟩, ⟨"participant".data, "B".data, none⟩]
      [.signal "hi".data "A".data "B".data false false] asciiSizes).2
      ((0, 1, 4) : Triple) (by rw [hT]; exact List.mem_cons_self _ _) (by decide)
      _ _ (by rw [hplaced]; rfl) (by rw [hplaced]; rfl)

end LSD

-- Concrete checks of the embedding on small scripts.
example : LSD.trim "  a b ".data = "a b".data := by decide
example : LSD.splitFirstSpace "note left".data = ("note".data, "left".data) := by decide
example : LSD.splitFirstSpace "autonumber".data = ("autonumber".data, "autonumber".data) := by decide
example : LSD.splitOnArrow "A->B->C".data = ["A".data, "B".data, "C".data] := by decide
example : LSD.splitOnArrow "A-->B".data = ["A-".data, "B".data] := by decide
example : LSD.splitOnAs "Alice as A".data = ["Alice".data, "A".data] := by decide
example : LSD.splitOnChar ':' "a: b: c".data = ["a".data, " b".data, " c".data] := by decide
example : LSD.splitOnColonEscaped "\"a:b\"->C: hi".data = ("\"a:b\"->C".data, " hi".data) := by decide
example : LSD.splitOnColonEscaped "abc".data = ("abc".data, []) := by decide
example : LSD.parseString "A->B: hi" =
    some ([⟨"participant".data, "A".data, none⟩, ⟨"participant".data, "B".data, none⟩],
      [.signal "hi".data "A".data "B".data false false]) := by rfl
example : LSD.parseString "alt x\n\x7d\nA->B: hi" = none := by rfl
example : LSD.parseString "alt x\n\u00A0\x7d\nA->B: hi" = none := by rfl
example : LSD.trim "\u00A0\x7d\u2028".data = "\x7d".data := by decide
example : LSD.parseString "alt ok\nA->B: x\nelse bad\nA->B: y\nend" =
    some ([⟨"participant".data, "A".data, none⟩, ⟨"participant".data, "B".data, none⟩],
      [.group "alt".data
        [("ok".data, [.signal "x".data "A".data "B".data false false]),
         ("bad".data, [.signal "y".data "A".data "B".data false false])]]) := by rfl
example : LSD.parseString "note right of A\nline1\nline2\nend" =
    some ([], [.annot "note".data "line1\nline2\n".data "right".data (some "A".data)]) := by rfl
example : LSD.parseString "A-->B: dotted\nA->>B: open" =
    some ([⟨"participant".data, "A".data, none⟩, ⟨"participant".data, "B".data, none⟩],
      [.signal "dotted".data "A".data "B".data true false,
       .signal "open".data "A".data "B".data false true]) := by rfl
example : LSD.parseString "A->+B: hi" =
    some ([⟨"participant".data, "A".data, none⟩, ⟨"participant".data, "B".data, none⟩],
      [.signal "hi".data "A".data "B".data false false,
       .life "activate".data "B".data]) := by rfl
example : LSD.parseString "alt a\nnote left of A\nxyz\nend\nend" =
    some ([], [.group "alt".data
      [("a".data, [.annot "note".data "xyz\n".data "left".data (some "A".data)])]]) := by rfl
example : LSD.parseString "parallel\nA->B: x\n\x7d\nB->A: y" =
    some ([⟨"participant".data, "A".data, none⟩, ⟨"participant".data, "B".data, none⟩],
      [.sync "parallel".data [.signal "x".data "A".data "B".data false false],
       .signal "y".data "B".data "A".data false false]) := by rfl
